import Mathlib

/-
Verification of the encryption layer in `stores/cryptostore.go`
(xiaomi-tc/nats-streaming-server).

The embedding is sequential: the Go code guards its shared state with atomic
counters and a mutex; here the state (call counter, in-flight counter, lock
flag, active nonce) is threaded explicitly through each operation.  The
external collaborators — the chacha20poly1305 AEAD cipher, the sha256 hash,
the crypto/rand source and the wrapped store — are modelled as parameters:
an abstract `AEAD` structure, a hash function `String → Bytes`, an
`Option Bytes` standing for the outcome of one `io.ReadFull(rand.Reader, …)`
call, and response values of the underlying store.
-/

namespace Cryptostore

/-- Byte strings, as lists of byte values. -/
abbrev Bytes := List Nat

/-- Abstract AEAD cipher instance (the `cipher.AEAD` returned by
`chacha20poly1305.New`): nonce and tag sizes plus the two primitives used by
`cryptostore.go`.  `Seal nonce plaintext` yields `ciphertext ‖ tag`;
`Open nonce (ciphertext ‖ tag)` yields the plaintext or `none` on
authentication failure. -/
structure AEAD where
  NonceSize : Nat
  Overhead : Nat
  Seal : Bytes → Bytes → Bytes
  Open : Bytes → Bytes → Option Bytes

/-- State of a `CryptoStore` (`cryptostore.go` lines 40-53).  The embedded
`Store` handle is not part of the state: the operations that touch it take
the underlying store's responses as parameters.  `locked` models the
`sync.Mutex`; `gen` is a ghost field counting successful nonce
installations (used only to state invariants, never read by the code). -/
structure CryptoStore where
  inEncrypt : Int
  encrypted : Int
  locked : Bool
  gcm : AEAD
  nonce : Bytes
  nonceSize : Nat
  cryptoOverhead : Nat
  gen : Nat

/-- Default value of `csMaxEncryptCallsPerNonce` (`cryptostore.go` line 32). -/
def csDefaultMaxEncryptCallsPerNonce : Int := 0x100000000 - 10000

/-- Result buffer of one seal (`cryptostore.go` lines 151-157).  The Go code
allocates `nonceSize + overhead + len(data)` bytes, copies the nonce, copies
the payload behind it, seals in place and returns `buf[:nonceSize+len(ret)]`;
since `cipher.AEAD.Seal` appends exactly `len(data)+Overhead` bytes to a
destination whose capacity is exactly that, the whole dance is the
concatenation `nonce ‖ Seal(nonce, data)`. -/
def sealBuf (cs : CryptoStore) (data : Bytes) : Bytes :=
  cs.nonce ++ cs.gcm.Seal cs.nonce data

/-- Successful nonce installation inside `generateNewNonce`
(`cryptostore.go` lines 93-101): install the freshly generated nonce and
reset the call counter (`atomic.StoreInt64(&cs.encrypted, 0)`).  The ghost
generation counter advances.  The caller (rotation branch of `encrypt`)
unlocks afterwards, hence `locked := false`. -/
def rotateState (cs : CryptoStore) (n : Bytes) : CryptoStore :=
  { cs with nonce := n, encrypted := 0, gen := cs.gen + 1, locked := false }

/-- Outcome of one `CryptoStore.encrypt` call: a sealed buffer or the error
of a failed `generateNewNonce`, together with the post-state. -/
inductive EncOutcome where
  | ok (buf : Bytes) (cs : CryptoStore)
  | err (cs : CryptoStore)

/-- One `CryptoStore.encrypt` call (`cryptostore.go` lines 130-158),
sequentially.  `rng` is the nonce that `io.ReadFull(rand.Reader, …)` would
deliver if rotation runs (`none` = the random source fails); `fuel` bounds
the `goto CHECK_ENCRYPTED_COUNT` retry loop, and `none` as a result means
the call never returns within that bound.

The in-flight counter `inEncrypt` is incremented on entry and decremented
before every return, so the returned states carry the caller's value
unchanged; the rotator's drain loop observes it after the self-decrement,
which is the `cs.inEncrypt > 0` test below (a sequential caller that sees a
positive count spins forever).  Likewise `cs.Lock()` on a held lock never
returns.  On a failed rotation the error is returned after `cs.Unlock()`
with the call counter still at its incremented value and the nonce
unchanged — `generateNewNonce` resets the counter only on success. -/
def encrypt (max : Int) (rng : Option Bytes) : Nat → CryptoStore → Bytes → Option EncOutcome
  | 0, _, _ => none
  | fuel + 1, cs, data =>
    if cs.encrypted + 1 ≥ max then
      if cs.locked then none
      else if cs.encrypted + 1 = max then
        if cs.inEncrypt > 0 then none
        else
          match rng with
          | none => some (.err { cs with encrypted := cs.encrypted + 1, locked := false })
          | some n => some (.ok (sealBuf (rotateState cs n) data) (rotateState cs n))
      else encrypt max rng fuel { cs with encrypted := cs.encrypted + 1 } data
    else
      some (.ok (sealBuf { cs with encrypted := cs.encrypted + 1 } data)
                { cs with encrypted := cs.encrypted + 1 })

/-- Outcome of `CryptoStore.decrypt`: plaintext, authentication failure from
`gcm.Open`, or the Go runtime panic raised by the unguarded slice
`data[:cs.nonceSize]` when the record is shorter than the nonce. -/
inductive DecOutcome where
  | ok (pt : Bytes)
  | authErr
  | panic
  deriving DecidableEq

/-- Decryption (`cryptostore.go` lines 160-162): split the record into its
nonce prefix and ciphertext‖tag suffix and call `gcm.Open`.  The slice
expressions `data[:cs.nonceSize]` and `data[cs.nonceSize:]` panic when the
record is shorter than the nonce (store-returned buffers have capacity equal
to their length). -/
def decrypt (cs : CryptoStore) (data : Bytes) : DecOutcome :=
  if cs.nonceSize ≤ data.length then
    match cs.gcm.Open (data.take cs.nonceSize) (data.drop cs.nonceSize) with
    | some pt => .ok pt
    | none => .authErr
  else .panic

/-- Message envelope (`pb.MsgProto`), reduced to the fields the crypto layer
reads or writes plus representative metadata.  `data = none` models a nil
`[]byte`; `data = some []` a non-nil zero-length slice — the two are
distinguished by the `m.Data == nil` guards in `cryptostore.go`. -/
structure MsgProto where
  sequence : Nat
  timestamp : Int
  subject : String
  data : Option Bytes
  deriving DecidableEq

/-- Errors visible through the store interfaces: an authentication failure
raised by `gcm.Open`, or an error of the underlying store, passed through. -/
inductive ReadErr where
  | authFailure
  | storeErr (code : Nat)
  deriving DecidableEq

/-- Underlying per-channel message store (external collaborator), modelled by
the responses it gives to the four calls `cryptostore.go` forwards.  Each Go
call returns a `(value, error)` pair, both possibly set. -/
structure MsgStore where
  lookup : Nat → Option MsgProto × Option ReadErr
  firstMsg : Option MsgProto × Option ReadErr
  lastMsg : Option MsgProto × Option ReadErr
  store : Option Bytes → Nat × Option ReadErr

/-- Result of a read through `CryptoMsgStore`: the `(message, error)` pair
returned to the caller, or the runtime panic escaping from `decrypt`. -/
inductive ReadOutcome where
  | ret (m : Option MsgProto) (err : Option ReadErr)
  | panic
  deriving DecidableEq

/-- `CryptoMsgStore.decryptedMsg` (`cryptostore.go` lines 176-184): decrypt
the payload and return a shallow copy `retMsg := *m` of the envelope with
only `Data` replaced; on error return `(nil, err)`.  Callers only reach this
with `m.Data != nil`; a nil slice behaves as the empty one under slicing,
hence `getD []`. -/
def decryptedMsg (cs : CryptoStore) (m : MsgProto) : ReadOutcome :=
  match decrypt cs (m.data.getD []) with
  | .ok dd => .ret (some { m with data := some dd }) none
  | .authErr => .ret none (some .authFailure)
  | .panic => .panic

/-- Common body of `CryptoMsgStore.Lookup`, `FirstMsg` and `LastMsg`
(`cryptostore.go` lines 186-193, 196-203, 206-213; the three bodies are
identical): given the underlying call's `(m, err)` response, return it
unchanged when `m == nil || m.Data == nil || err != nil`, otherwise decrypt. -/
def cryptoMsgRead (cs : CryptoStore) (m? : Option MsgProto) (err? : Option ReadErr) : ReadOutcome :=
  match m?, err? with
  | none, e => .ret none e
  | some m, some e => .ret (some m) (some e)
  | some m, none =>
    match m.data with
    | none => .ret (some m) none
    | some _ => decryptedMsg cs m

/-- `CryptoMsgStore.Lookup` (`cryptostore.go` lines 186-193). -/
def CryptoMsgStore.Lookup (ms : MsgStore) (cs : CryptoStore) (seq : Nat) : ReadOutcome :=
  cryptoMsgRead cs (ms.lookup seq).1 (ms.lookup seq).2

/-- `CryptoMsgStore.FirstMsg` (`cryptostore.go` lines 196-203). -/
def CryptoMsgStore.FirstMsg (ms : MsgStore) (cs : CryptoStore) : ReadOutcome :=
  cryptoMsgRead cs ms.firstMsg.1 ms.firstMsg.2

/-- `CryptoMsgStore.LastMsg` (`cryptostore.go` lines 206-213). -/
def CryptoMsgStore.LastMsg (ms : MsgStore) (cs : CryptoStore) : ReadOutcome :=
  cryptoMsgRead cs ms.lastMsg.1 ms.lastMsg.2

/-- Length of a Go byte slice (`len(data)`); nil has length 0. -/
def dataLen : Option Bytes → Nat
  | none => 0
  | some l => l.length

/-- Result of `CryptoMsgStore.Store`: `stored sent seq err cs` records the
payload actually handed to the underlying store together with that store's
response and the crypto state after the call; `encErr` is the
`return 0, err` path; `hang` marks an encrypt call that never returns. -/
inductive StoreOutcome where
  | stored (sent : Option Bytes) (seq : Nat) (err : Option ReadErr) (cs : CryptoStore)
  | encErr (cs : CryptoStore)
  | hang

/-- `CryptoMsgStore.Store` (`cryptostore.go` lines 165-174): zero-length
payloads (nil or empty) are delegated unchanged; otherwise the payload is
encrypted first and the sealed record is delegated. -/
def CryptoMsgStore.Store (ms : MsgStore) (max : Int) (rng : Option Bytes) (fuel : Nat)
    (cs : CryptoStore) (data : Option Bytes) : StoreOutcome :=
  if dataLen data = 0 then
    .stored data (ms.store data).1 (ms.store data).2 cs
  else
    match encrypt max rng fuel cs (data.getD []) with
    | none => .hang
    | some (.err cs') => .encErr cs'
    | some (.ok buf cs') => .stored (some buf) (ms.store (some buf)).1 (ms.store (some buf)).2 cs'

/-- Construction errors of `NewCryptoStore` (`cryptostore.go` lines 18-21,
66-90): the missing-key error `ErrCryptoStoreRequiresKey`, a
`chacha20poly1305.New` failure, or a failed initial `generateNewNonce`. -/
inductive NewStoreErr where
  | requiresKey
  | cipherErr
  | nonceGenErr
  deriving DecidableEq

/-- Contract of the external `chacha20poly1305.New`: it returns a cipher
exactly when the key is `KeySize` = 32 bytes long (`mk` stands for the
library's actual construction on valid keys). -/
def chacha20poly1305New (mk : Bytes → AEAD) (key : Bytes) : Option AEAD :=
  if key.length = 32 then some (mk key) else none

/-- `NewCryptoStore` (`cryptostore.go` lines 66-90).  `hash` stands for the
external sha256 digest of the key string; `env` is the value of
`os.Getenv(CryptoStoreEnvKeyName)` (empty when the variable is unset);
`rng` is the outcome of the initial `generateNewNonce`. -/
def NewCryptoStore (mk : Bytes → AEAD) (hash : String → Bytes) (rng : Option Bytes)
    (keyParam env : String) : Except NewStoreErr CryptoStore :=
  let key := if keyParam = "" then env else keyParam
  if key = "" then .error .requiresKey
  else
    match chacha20poly1305New mk (hash key) with
    | none => .error .cipherErr
    | some gcm =>
      match rng with
      | none => .error .nonceGenErr
      | some n =>
        .ok { inEncrypt := 0, encrypted := 0, locked := false, gcm := gcm, nonce := n,
              nonceSize := gcm.NonceSize, cryptoOverhead := gcm.Overhead, gen := 0 }

/-- Modelled from the spec: a message-store handle held by a channel
(the `Channel.Msgs` field of `stores.go`, which is not under `src/`).  A
handle is either an underlying implementation (opaque id) or that same kind
of handle wrapped by a `CryptoMsgStore` bound to a `CryptoStore`
(`&CryptoMsgStore{MsgStore: c.Msgs, cs: cs}`). -/
inductive MsgStoreRef where
  | base (id : Nat)
  | cryptoWrap (inner : MsgStoreRef) (cs : CryptoStore)

/-- Modelled from the spec: a channel (`stores.go`, not under `src/`) is its
message-store handle plus other channel metadata, which the spec says the
crypto layer never touches; the metadata is kept abstract as `μ`. -/
structure Channel (μ : Type) where
  Msgs : MsgStoreRef
  meta : μ

/-- Modelled from the spec: a recovered channel (`stores.go`, not under
`src/`) carries the channel plus recovered non-payload data (subscriptions
etc.), abstract as `σ`. -/
structure RecoveredChannel (μ σ : Type) where
  channel : Channel μ
  extra : σ

/-- Modelled from the spec: the recovered state (`stores.go`, not under
`src/`): named recovered channels plus further recovered data (clients,
server info), abstract as `τ`. -/
structure RecoveredState (μ σ τ : Type) where
  Channels : List (String × RecoveredChannel μ σ)
  extra : τ

/-- `CryptoStore.CreateChannel` (`cryptostore.go` lines 117-128): delegate,
then replace the returned channel's `Msgs` handle with a `CryptoMsgStore`
wrapping it; errors are returned as-is. -/
def CryptoStore.CreateChannel {μ : Type} (underlying : String → Except ReadErr (Channel μ))
    (cs : CryptoStore) (name : String) : Except ReadErr (Channel μ) :=
  match underlying name with
  | .error e => .error e
  | .ok c => .ok { c with Msgs := .cryptoWrap c.Msgs cs }

/-- `CryptoStore.Recover` (`cryptostore.go` lines 104-115): delegate to the
underlying store's recovery (`under` is its `(rs, err)` response); if
`rs == nil || err != nil` return the pair unchanged, otherwise wrap every
recovered channel's `Msgs` handle. -/
def CryptoStore.Recover {μ σ τ : Type} (under : Option (RecoveredState μ σ τ) × Option ReadErr)
    (cs : CryptoStore) : Option (RecoveredState μ σ τ) × Option ReadErr :=
  match under with
  | (none, e) => (none, e)
  | (some rs, some e) => (some rs, some e)
  | (some rs, none) =>
    (some { rs with
            Channels := rs.Channels.map fun pr =>
              (pr.1, { pr.2 with channel :=
                        { pr.2.channel with Msgs := .cryptoWrap pr.2.channel.Msgs cs } }) },
     none)

/-- One committed seal, as observed in a run of `encrypt` calls: the ghost
generation of the nonce it used, the value of the call counter when the
ciphertext was committed (the post-increment `count` for an ordinary seal,
`0` for the seal performed by the call that rotated), and whether this call
installed a new nonce. -/
structure SealEvent where
  gen : Nat
  count : Int
  rotated : Bool
  deriving DecidableEq

/-- Run a sequence of `encrypt` calls, each with its own payload and random
outcome, collecting one `SealEvent` per committed ciphertext.  A call that
never returns ends the run (sequentially nothing else can happen); a call
that returns the rotation error commits nothing but the run continues. -/
def runEncrypts (max : Int) (fuel : Nat) : CryptoStore → List (Bytes × Option Bytes) →
    CryptoStore × List SealEvent
  | cs, [] => (cs, [])
  | cs, (p, rng) :: rest =>
    match encrypt max rng fuel cs p with
    | none => (cs, [])
    | some (.err cs') => runEncrypts max fuel cs' rest
    | some (.ok _ cs') =>
      let ev : SealEvent := { gen := cs'.gen, count := cs'.encrypted, rotated := cs'.gen != cs.gen }
      let r := runEncrypts max fuel cs' rest
      (r.1, ev :: r.2)

/-- Number of committed seals attributed to nonce generation `g`. -/
def countGen (g : Nat) (evs : List SealEvent) : Nat :=
  (evs.filter fun e => e.gen == g).length

/-- Number of rotation seals attributed to nonce generation `g`. -/
def countRot (g : Nat) (evs : List SealEvent) : Nat :=
  (evs.filter fun e => e.gen == g && e.rotated).length

/-- Read responses that `cryptostore.go`'s guard
`m == nil || m.Data == nil || err != nil` sends back untouched: absent
message, nil payload, or an error from the underlying call. -/
def passThrough (m? : Option MsgProto) (err? : Option ReadErr) : Prop :=
  m? = none ∨ (∀ m, m? = some m → m.data = none) ∨ err? ≠ none

/-- Concrete AEAD used to instantiate theorems on closed inputs: key byte in
front of the payload as a one-byte tag, nonce ignored. -/
def toyAEAD (k : Nat) : AEAD where
  NonceSize := 2
  Overhead := 1
  Seal := fun _ p => k % 256 :: p
  Open := fun _ d =>
    match d with
    | [] => none
    | t :: rest => if t = k % 256 then some rest else none

/-- Concrete freshly constructed store over `toyAEAD k`. -/
def toyStore (k : Nat) : CryptoStore where
  inEncrypt := 0
  encrypted := 0
  locked := false
  gcm := toyAEAD k
  nonce := [5, 6]
  nonceSize := 2
  cryptoOverhead := 1
  gen := 0

/-- Invariant tying a run's future seal events to the crypto state it starts
from: per-event bounds, and per-generation seal counts — the running
generation has `max - 1 - encrypted` counted seals left, strictly younger
generations get at most `max` seals and at most one rotation seal, and no
event is ever attributed to an older generation. -/
structure EvGood (max : Int) (cs : CryptoStore) (evs : List SealEvent) : Prop where
  events : ∀ ev ∈ evs, (ev.count < max ∨ ev.rotated = true) ∧ (ev.rotated = true ↔ ev.count = 0)
  cur : (countGen cs.gen evs : Int) ≤ max - 1 - cs.encrypted
  past : ∀ g, g < cs.gen → countGen g evs = 0
  future : ∀ g, cs.gen < g → (countGen g evs : Int) ≤ max
  rotPast : ∀ g, g ≤ cs.gen → countRot g evs = 0
  rotFuture : ∀ g, cs.gen < g → countRot g evs ≤ 1

/-- Concrete message whose payload is a non-nil zero-length slice. -/
def emptyDataMsg : MsgProto where
  sequence := 7
  timestamp := 3
  subject := "foo"
  data := some []

/-- Concrete message carrying the record sealed by the toy store under key 1
(see the roundtrip witness). -/
def sealedMsg : MsgProto where
  sequence := 11
  timestamp := 4
  subject := "bar"
  data := some [5, 6, 1, 9, 10]

/-- Concrete underlying message store answering every read with `(m, nil)`. -/
def toyMsgStoreOf (m : MsgProto) : MsgStore where
  lookup := fun _ => (some m, none)
  firstMsg := (some m, none)
  lastMsg := (some m, none)
  store := fun _ => (1, none)

/-- Below the configured maximum, a call seals under the current nonce and
only bumps the call counter. -/
theorem encrypt_below (max : Int) (rng : Option Bytes) (fuel : Nat) (cs : CryptoStore)
    (data : Bytes) (h : cs.encrypted + 1 < max) :
    encrypt max rng (fuel + 1) cs data =
      some (.ok (sealBuf { cs with encrypted := cs.encrypted + 1 } data)
                { cs with encrypted := cs.encrypted + 1 }) := by
  unfold encrypt
  rw [if_neg (by omega)]

/-- The call whose post-increment counter hits the maximum rotates: with a
working random source it seals under the freshly installed nonce. -/
theorem encrypt_rotate_some (max : Int) (n : Bytes) (fuel : Nat) (cs : CryptoStore)
    (data : Bytes) (h : cs.encrypted + 1 = max) (hl : cs.locked = false)
    (hi : ¬ cs.inEncrypt > 0) :
    encrypt max (some n) (fuel + 1) cs data =
      some (.ok (sealBuf (rotateState cs n) data) (rotateState cs n)) := by
  unfold encrypt
  rw [if_pos (by omega), hl]
  simp only [Bool.false_eq_true, if_false]
  rw [if_pos h, if_neg hi]

/-- The rotating call returns the nonce-generation error when the random
source fails; the counter keeps the incremented value (the reset happens
only on success), the nonce is unchanged and the lock is released. -/
theorem encrypt_rotate_none (max : Int) (fuel : Nat) (cs : CryptoStore) (data : Bytes)
    (h : cs.encrypted + 1 = max) (hl : cs.locked = false) (hi : ¬ cs.inEncrypt > 0) :
    encrypt max none (fuel + 1) cs data =
      some (.err { cs with encrypted := cs.encrypted + 1, locked := false }) := by
  unfold encrypt
  rw [if_pos (by omega), hl]
  simp only [Bool.false_eq_true, if_false]
  rw [if_pos h, if_neg hi]

/-- Once the call counter has passed the maximum, every later call loops in
`goto CHECK_ENCRYPTED_COUNT` forever: the post-increment counter can never
equal the maximum again, so `generateNewNonce` is never re-attempted. -/
theorem encrypt_over (max : Int) (rng : Option Bytes) (cs : CryptoStore) (data : Bytes)
    (h : max ≤ cs.encrypted) : ∀ fuel, encrypt max rng fuel cs data = none := by
  intro fuel
  induction fuel generalizing cs with
  | zero => rfl
  | succ f ih =>
    unfold encrypt
    rw [if_pos (by omega)]
    by_cases hl : cs.locked = true
    · rw [if_pos hl]
    · rw [if_neg hl, if_neg (by omega)]
      exact ih { cs with encrypted := cs.encrypted + 1 } (by show max ≤ cs.encrypted + 1; omega)

/-- Structure of every successful `encrypt` result: the cipher and the
recorded sizes are untouched, the returned buffer is the selected nonce
followed by the seal under that nonce, and the selected nonce is either the
caller's current one or the freshly generated one. -/
theorem encrypt_ok_inv (max : Int) (rng : Option Bytes) (p : Bytes) :
    ∀ (fuel : Nat) (cs : CryptoStore) (buf : Bytes) (cs' : CryptoStore),
      encrypt max rng fuel cs p = some (.ok buf cs') →
      cs'.gcm = cs.gcm ∧ cs'.nonceSize = cs.nonceSize ∧
      cs'.cryptoOverhead = cs.cryptoOverhead ∧
      buf = cs'.nonce ++ cs'.gcm.Seal cs'.nonce p ∧
      (cs'.nonce = cs.nonce ∨ rng = some cs'.nonce) := by
  intro fuel
  induction fuel with
  | zero => intro cs buf cs' h; exact absurd h (by simp [encrypt])
  | succ f ih =>
    intro cs buf cs' h
    unfold encrypt at h
    split at h
    · split at h
      · exact absurd h (by simp)
      · split at h
        · split at h
          · exact absurd h (by simp)
          · split at h
            · exact absurd h (by simp)
            · simp only [Option.some.injEq, EncOutcome.ok.injEq] at h
              obtain ⟨hb, hc⟩ := h
              subst hc
              exact ⟨rfl, rfl, rfl, hb.symm, Or.inr rfl⟩
        · obtain ⟨h1, h2, h3, h4, h5⟩ := ih _ _ _ h
          refine ⟨h1, h2, h3, h4, ?_⟩
          cases h5 with
          | inl h5 => exact Or.inl h5
          | inr h5 => exact Or.inr h5
    · simp only [Option.some.injEq, EncOutcome.ok.injEq] at h
      obtain ⟨hb, hc⟩ := h
      subst hc
      exact ⟨rfl, rfl, rfl, hb.symm, Or.inl rfl⟩

/-- C1: for every non-empty payload `P`, decrypting the record produced by
encrypting `P` under the same key returns exactly `P`.  The hypotheses are
the contract of the external chacha20poly1305 cipher (round trip under any
well-sized nonce) and the construction invariant that the active nonce, and
any nonce the random source delivers, has the cipher's nonce length. -/
theorem decrypt_encrypt_roundtrip (max : Int) (rng : Option Bytes) (fuel : Nat)
    (cs : CryptoStore) (p buf : Bytes) (cs' : CryptoStore)
    (_hp : p ≠ [])
    (hn : cs.nonce.length = cs.nonceSize)
    (hrng : ∀ n, rng = some n → n.length = cs.nonceSize)
    (hR : ∀ n, n.length = cs.nonceSize → cs.gcm.Open n (cs.gcm.Seal n p) = some p)
    (henc : encrypt max rng fuel cs p = some (.ok buf cs')) :
    decrypt cs' buf = .ok p := by
  obtain ⟨hg, hns, _, hbuf, hnd⟩ := encrypt_ok_inv max rng p fuel cs buf cs' henc
  have hlen : cs'.nonce.length = cs.nonceSize := by
    cases hnd with
    | inl h => rw [h]; exact hn
    | inr h => exact hrng _ h
  subst hbuf
  unfold decrypt
  rw [hns, hg]
  rw [if_pos (by rw [List.length_append, hlen]; omega)]
  rw [← hlen, List.take_left, List.drop_left]
  rw [hR _ hlen]

/-- Witness for C1 at a closed input: encrypting `[9, 10]` in the fresh toy
store (no rotation) and decrypting the produced record yields `[9, 10]`. -/
theorem decrypt_encrypt_roundtrip_witness :
    decrypt { toyStore 1 with encrypted := 1 } [5, 6, 1, 9, 10] = .ok [9, 10] :=
  decrypt_encrypt_roundtrip 5 (some [7, 8]) 1 (toyStore 1) [9, 10] [5, 6, 1, 9, 10]
    { toyStore 1 with encrypted := 1 }
    (by simp) (by rfl) (by intro n h; cases h; rfl)
    (by intro n h; simp [toyStore, toyAEAD]) (by rfl)

/-- Responses matching the pass-through guard are returned unchanged by the
shared read body. -/
theorem cryptoMsgRead_passThrough (cs : CryptoStore) (m? : Option MsgProto)
    (err? : Option ReadErr) (h : passThrough m? err?) :
    cryptoMsgRead cs m? err? = .ret m? err? := by
  match m?, err? with
  | none, e => rfl
  | some m, some e => rfl
  | some m, none =>
    rcases h with h | h | h
    · exact absurd h (by simp)
    · have hd := h m rfl
      show (match m.data with
            | none => ReadOutcome.ret (some m) none
            | some _ => decryptedMsg cs m) = ReadOutcome.ret (some m) none
      rw [hd]
    · exact absurd rfl h

/-- C3: every successful seal of a non-empty payload produces the record
`nonce ‖ ciphertext ‖ tag` — the selected nonce (of the cipher's fixed nonce
length) followed by the seal output, with total length
`nonceSize + |payload| + overhead`; and zero-length payloads are handed to
the underlying store exactly as given, bypassing encryption.  `hSeal` is the
external cipher's output-length contract; `hn`/`hrng` are the construction
invariant that active and freshly generated nonces have the cipher's nonce
length. -/
theorem encrypt_record_layout (max : Int) (rng : Option Bytes) (fuel : Nat)
    (cs : CryptoStore) (p buf : Bytes) (cs' : CryptoStore)
    (_hp : p ≠ [])
    (hn : cs.nonce.length = cs.nonceSize)
    (hrng : ∀ n, rng = some n → n.length = cs.nonceSize)
    (hSeal : ∀ n d, (cs.gcm.Seal n d).length = d.length + cs.cryptoOverhead)
    (henc : encrypt max rng fuel cs p = some (.ok buf cs')) :
    (buf = cs'.nonce ++ cs'.gcm.Seal cs'.nonce p ∧
     cs'.nonce.length = cs.nonceSize ∧
     buf.length = cs.nonceSize + p.length + cs.cryptoOverhead) ∧
    (∀ (ms : MsgStore) (d : Option Bytes), dataLen d = 0 →
      CryptoMsgStore.Store ms max rng fuel cs d =
        .stored d (ms.store d).1 (ms.store d).2 cs) := by
  obtain ⟨hg, _, _, hbuf, hnd⟩ := encrypt_ok_inv max rng p fuel cs buf cs' henc
  have hlen : cs'.nonce.length = cs.nonceSize := by
    cases hnd with
    | inl h => rw [h]; exact hn
    | inr h => exact hrng _ h
  refine ⟨⟨hbuf, hlen, ?_⟩, ?_⟩
  · rw [hbuf, List.length_append, hlen, hg, hSeal]
    omega
  · intro ms d hd
    unfold CryptoMsgStore.Store
    rw [if_pos hd]

/-- Witness for C3 at a closed input: sealing `[9, 10]` in the fresh toy
store yields the 2+2+1 byte record `[5, 6] ‖ [1, 9, 10]`, and a nil payload
is handed through unchanged. -/
theorem encrypt_record_layout_witness :
    (([5, 6, 1, 9, 10] : Bytes) =
        ({ toyStore 1 with encrypted := 1 } : CryptoStore).nonce ++
          ({ toyStore 1 with encrypted := 1 } : CryptoStore).gcm.Seal
            ({ toyStore 1 with encrypted := 1 } : CryptoStore).nonce [9, 10] ∧
     ({ toyStore 1 with encrypted := 1 } : CryptoStore).nonce.length = (toyStore 1).nonceSize ∧
     ([5, 6, 1, 9, 10] : Bytes).length =
       (toyStore 1).nonceSize + ([9, 10] : Bytes).length + (toyStore 1).cryptoOverhead) ∧
    (∀ (ms : MsgStore) (d : Option Bytes), dataLen d = 0 →
      CryptoMsgStore.Store ms 5 (some [7, 8]) 1 (toyStore 1) d =
        .stored d (ms.store d).1 (ms.store d).2 (toyStore 1)) :=
  encrypt_record_layout 5 (some [7, 8]) 1 (toyStore 1) [9, 10] [5, 6, 1, 9, 10]
    { toyStore 1 with encrypted := 1 }
    (by simp) (by rfl) (by intro n h; cases h; rfl)
    (by intro n d; simp [toyStore, toyAEAD]) (by rfl)

/-- C4 counterexample: the underlying store returns a message whose payload
is a non-nil zero-length slice; the claim says it is returned unchanged
without entering the decryption path, but `Lookup` only guards
`m.Data == nil`, so the message enters `decryptedMsg` and the unguarded
slice `data[:nonceSize]` panics instead of returning the message. -/
theorem empty_payload_read_counterexample :
    CryptoMsgStore.Lookup (toyMsgStoreOf emptyDataMsg) (toyStore 1) 7 = .panic ∧
    CryptoMsgStore.Lookup (toyMsgStoreOf emptyDataMsg) (toyStore 1) 7 ≠
      .ret (some emptyDataMsg) none := by
  exact ⟨rfl, by decide⟩

/-- C4 as amended: `Store` delegates zero-length payloads unchanged without
encrypting, and the read paths return the underlying response unchanged when
the message is absent, its payload is nil, or the underlying call errored —
but not when the payload is a present zero-length slice, which enters the
decryption path (see the counterexample). -/
theorem store_read_passthrough_amended (ms : MsgStore) (max : Int) (rng : Option Bytes)
    (fuel : Nat) (cs : CryptoStore) :
    (∀ d, dataLen d = 0 →
      CryptoMsgStore.Store ms max rng fuel cs d =
        .stored d (ms.store d).1 (ms.store d).2 cs) ∧
    (∀ seq, passThrough (ms.lookup seq).1 (ms.lookup seq).2 →
      CryptoMsgStore.Lookup ms cs seq = .ret (ms.lookup seq).1 (ms.lookup seq).2) ∧
    (passThrough ms.firstMsg.1 ms.firstMsg.2 →
      CryptoMsgStore.FirstMsg ms cs = .ret ms.firstMsg.1 ms.firstMsg.2) ∧
    (passThrough ms.lastMsg.1 ms.lastMsg.2 →
      CryptoMsgStore.LastMsg ms cs = .ret ms.lastMsg.1 ms.lastMsg.2) := by
  refine ⟨fun d hd => ?_, fun seq h => cryptoMsgRead_passThrough cs _ _ h,
    fun h => cryptoMsgRead_passThrough cs _ _ h, fun h => cryptoMsgRead_passThrough cs _ _ h⟩
  unfold CryptoMsgStore.Store
  rw [if_pos hd]

/-- Witness for the amended C4 at a closed input: a nil-payload message is
passed through unchanged on all three read paths, and `Store nil` delegates
unchanged. -/
theorem store_read_passthrough_amended_witness :
    (∀ d, dataLen d = 0 →
      CryptoMsgStore.Store (toyMsgStoreOf { emptyDataMsg with data := none }) 5 none 1
          (toyStore 1) d =
        .stored d 1 none (toyStore 1)) ∧
    (∀ seq, passThrough (some { emptyDataMsg with data := none }) none →
      CryptoMsgStore.Lookup (toyMsgStoreOf { emptyDataMsg with data := none }) (toyStore 1) seq =
        .ret (some { emptyDataMsg with data := none }) none) ∧
    (passThrough (some { emptyDataMsg with data := none }) none →
      CryptoMsgStore.FirstMsg (toyMsgStoreOf { emptyDataMsg with data := none }) (toyStore 1) =
        .ret (some { emptyDataMsg with data := none }) none) ∧
    (passThrough (some { emptyDataMsg with data := none }) none →
      CryptoMsgStore.LastMsg (toyMsgStoreOf { emptyDataMsg with data := none }) (toyStore 1) =
        .ret (some { emptyDataMsg with data := none }) none) :=
  store_read_passthrough_amended (toyMsgStoreOf { emptyDataMsg with data := none }) 5 none 1
    (toyStore 1)

/-- C5 counterexample: with maximum 3 and the counter at 2, the rotating
call's `generateNewNonce` fails and the error is returned with the counter
left at 3; the next caller — the random source now working again — loops in
`goto CHECK_ENCRYPTED_COUNT` without ever re-attempting rotation (here it
fails to return within 30 iterations; `encrypt_over` shows any bound gives
the same), contradicting the claim that subsequent seal callers are able to
retry the rotation. -/
theorem rotation_retry_counterexample :
    encrypt 3 none 1 { toyStore 1 with encrypted := 2 } [9] =
      some (.err { toyStore 1 with encrypted := 3 }) ∧
    encrypt 3 (some [7, 8]) 30 { toyStore 1 with encrypted := 3 } [9] = none := by
  exact ⟨rfl, encrypt_over 3 (some [7, 8]) { toyStore 1 with encrypted := 3 } [9] (le_refl 3) 30⟩

/-- C5 as amended: if nonce generation fails during rotation inside a seal
call, that call returns the error without committing a ciphertext (the
state's nonce is unchanged) and with the rotation lock released; however the
call counter is not reset, so subsequent seal callers spin in the retry loop
forever and never re-attempt the rotation, whatever their random source
would deliver. -/
theorem rotation_failure_no_retry (max : Int) (fuel fuel' : Nat) (cs : CryptoStore)
    (p q : Bytes) (rng' : Option Bytes)
    (h : cs.encrypted + 1 = max) (hl : cs.locked = false) (hi : ¬ cs.inEncrypt > 0)
    (hf : 0 < fuel) :
    encrypt max none fuel cs p = some (.err { cs with encrypted := max, locked := false }) ∧
    encrypt max rng' fuel' { cs with encrypted := max, locked := false } q = none := by
  obtain ⟨f, rfl⟩ : ∃ f, fuel = f + 1 := ⟨fuel - 1, by omega⟩
  constructor
  · rw [encrypt_rotate_none max f cs p h hl hi, h]
  · exact encrypt_over max rng' _ q (le_refl max) fuel'

/-- Witness for the amended C5 at a closed input. -/
theorem rotation_failure_no_retry_witness :
    encrypt 4 none 2 { toyStore 2 with encrypted := 3 } [1] =
      some (.err { toyStore 2 with encrypted := 4, locked := false }) ∧
    encrypt 4 (some [1, 2]) 25 { toyStore 2 with encrypted := 4, locked := false } [2] = none :=
  rotation_failure_no_retry 4 2 25 { toyStore 2 with encrypted := 3 } [1] [2] (some [1, 2])
    (by decide) rfl (by decide) (by decide)

/-- A stored payload shorter than the nonce makes the shared read body hit
the out-of-bounds slice in `decrypt`. -/
theorem cryptoMsgRead_short (cs : CryptoStore) (m : MsgProto) (bs : Bytes)
    (hm : m.data = some bs) (hlen : bs.length < cs.nonceSize) :
    cryptoMsgRead cs (some m) none = .panic := by
  have hdec : decrypt cs (m.data.getD []) = .panic := by
    rw [hm, Option.getD_some]
    unfold decrypt
    rw [if_neg (by omega)]
  show (match m.data with
        | none => ReadOutcome.ret (some m) none
        | some _ => decryptedMsg cs m) = ReadOutcome.panic
  rw [hm]
  show decryptedMsg cs m = ReadOutcome.panic
  unfold decryptedMsg
  rw [hdec]

/-- C6: when the underlying store returns a message whose payload is present
but shorter than the cipher's nonce length (a non-nil zero-length slice
included), all three read paths invoke `decrypt`, whose unguarded slicing
`data[:nonceSize]` is out of bounds — the panic branch of the embedding is
reached instead of any return. -/
theorem short_record_read_panics (cs : CryptoStore) (ms : MsgStore) (m : MsgProto)
    (bs : Bytes) (seq : Nat)
    (hm : m.data = some bs) (hlen : bs.length < cs.nonceSize) :
    (ms.lookup seq = (some m, none) → CryptoMsgStore.Lookup ms cs seq = .panic) ∧
    (ms.firstMsg = (some m, none) → CryptoMsgStore.FirstMsg ms cs = .panic) ∧
    (ms.lastMsg = (some m, none) → CryptoMsgStore.LastMsg ms cs = .panic) := by
  have hcore := cryptoMsgRead_short cs m bs hm hlen
  refine ⟨fun h => ?_, fun h => ?_, fun h => ?_⟩
  · unfold CryptoMsgStore.Lookup
    rw [h]
    exact hcore
  · unfold CryptoMsgStore.FirstMsg
    rw [h]
    exact hcore
  · unfold CryptoMsgStore.LastMsg
    rw [h]
    exact hcore

/-- Witness for C6 at a closed input: a non-nil zero-length stored payload
panics on all three read paths of the toy store. -/
theorem short_record_read_panics_witness :
    CryptoMsgStore.Lookup (toyMsgStoreOf emptyDataMsg) (toyStore 1) 9 = .panic ∧
    CryptoMsgStore.FirstMsg (toyMsgStoreOf emptyDataMsg) (toyStore 1) = .panic ∧
    CryptoMsgStore.LastMsg (toyMsgStoreOf emptyDataMsg) (toyStore 1) = .panic :=
  ⟨(short_record_read_panics (toyStore 1) (toyMsgStoreOf emptyDataMsg) emptyDataMsg [] 9
      rfl (by decide)).1 rfl,
   (short_record_read_panics (toyStore 1) (toyMsgStoreOf emptyDataMsg) emptyDataMsg [] 9
      rfl (by decide)).2.1 rfl,
   (short_record_read_panics (toyStore 1) (toyMsgStoreOf emptyDataMsg) emptyDataMsg [] 9
      rfl (by decide)).2.2 rfl⟩

/-- C8: a record sealed under one key is rejected by decryption under a
store built with a different key: `decrypt` reports the authentication
failure and every read path surfaces it as `(nil, err)` — no plaintext, full
or partial, is ever returned (and, the functions being pure, the same
failure recurs on every read).  `hfail` is the external cipher's
authentication contract: opening under the second key anything sealed under
the first fails. -/
theorem wrong_key_auth_failure (max : Int) (rng : Option Bytes) (fuel : Nat)
    (cs1 cs2 : CryptoStore) (p buf : Bytes) (cs1' : CryptoStore) (ms : MsgStore)
    (m : MsgProto) (seq : Nat)
    (_hp : p ≠ [])
    (hnsz : cs2.nonceSize = cs1.nonceSize)
    (hn : cs1.nonce.length = cs1.nonceSize)
    (hrng : ∀ n, rng = some n → n.length = cs1.nonceSize)
    (hfail : ∀ n q, n.length = cs1.nonceSize → cs2.gcm.Open n (cs1.gcm.Seal n q) = none)
    (henc : encrypt max rng fuel cs1 p = some (.ok buf cs1'))
    (hm : m.data = some buf) :
    decrypt cs2 buf = .authErr ∧
    (ms.lookup seq = (some m, none) →
      CryptoMsgStore.Lookup ms cs2 seq = .ret none (some .authFailure)) ∧
    (ms.firstMsg = (some m, none) →
      CryptoMsgStore.FirstMsg ms cs2 = .ret none (some .authFailure)) ∧
    (ms.lastMsg = (some m, none) →
      CryptoMsgStore.LastMsg ms cs2 = .ret none (some .authFailure)) := by
  obtain ⟨hg, _, _, hbuf, hnd⟩ := encrypt_ok_inv max rng p fuel cs1 buf cs1' henc
  have hlen : cs1'.nonce.length = cs1.nonceSize := by
    cases hnd with
    | inl h => rw [h]; exact hn
    | inr h => exact hrng _ h
  have hdec : decrypt cs2 buf = .authErr := by
    subst hbuf
    unfold decrypt
    rw [hnsz, hg]
    rw [if_pos (by rw [List.length_append, hlen]; omega)]
    rw [← hlen, List.take_left, List.drop_left]
    rw [hfail _ p hlen]
  have hcore : cryptoMsgRead cs2 (some m) none = .ret none (some .authFailure) := by
    show (match m.data with
          | none => ReadOutcome.ret (some m) none
          | some _ => decryptedMsg cs2 m) = ReadOutcome.ret none (some .authFailure)
    rw [hm]
    show decryptedMsg cs2 m = ReadOutcome.ret none (some .authFailure)
    unfold decryptedMsg
    rw [hm, Option.getD_some, hdec]
  refine ⟨hdec, fun h => ?_, fun h => ?_, fun h => ?_⟩
  · unfold CryptoMsgStore.Lookup
    rw [h]
    exact hcore
  · unfold CryptoMsgStore.FirstMsg
    rw [h]
    exact hcore
  · unfold CryptoMsgStore.LastMsg
    rw [h]
    exact hcore

/-- Witness for C8 at a closed input: the toy record sealed under key 1 is
rejected under key 2 on all read paths. -/
theorem wrong_key_auth_failure_witness :
    decrypt (toyStore 2) [5, 6, 1, 9, 10] = .authErr ∧
    (toyMsgStoreOf sealedMsg).lookup 11 = (some sealedMsg, none) ∧
    CryptoMsgStore.Lookup (toyMsgStoreOf sealedMsg) (toyStore 2) 11 =
      .ret none (some .authFailure) :=
  have h := wrong_key_auth_failure 5 (some [7, 8]) 1 (toyStore 1) (toyStore 2) [9, 10]
    [5, 6, 1, 9, 10] { toyStore 1 with encrypted := 1 } (toyMsgStoreOf sealedMsg) sealedMsg 11
    (by simp) rfl rfl (by intro n hn; cases hn; rfl)
    (by intro n q hn; simp [toyStore, toyAEAD]) (by rfl) rfl
  ⟨h.1, rfl, h.2.1 rfl⟩

/-- C10: when decryption succeeds, each read path returns a fresh envelope
that keeps every non-payload field of the stored message and carries the
decrypted payload; the stored message value itself is left as it was (the
embedding is pure, mirroring `retMsg := *m` — the shallow copy in
`decryptedMsg` — so the underlying bytes are never written to). -/
theorem decrypted_read_shallow_copy (cs : CryptoStore) (ms : MsgStore) (m : MsgProto)
    (bs pt : Bytes) (seq : Nat)
    (hm : m.data = some bs) (hdec : decrypt cs bs = .ok pt) :
    (ms.lookup seq = (some m, none) →
      CryptoMsgStore.Lookup ms cs seq =
        .ret (some { sequence := m.sequence, timestamp := m.timestamp,
                     subject := m.subject, data := some pt }) none) ∧
    (ms.firstMsg = (some m, none) →
      CryptoMsgStore.FirstMsg ms cs =
        .ret (some { sequence := m.sequence, timestamp := m.timestamp,
                     subject := m.subject, data := some pt }) none) ∧
    (ms.lastMsg = (some m, none) →
      CryptoMsgStore.LastMsg ms cs =
        .ret (some { sequence := m.sequence, timestamp := m.timestamp,
                     subject := m.subject, data := some pt }) none) := by
  have hcore : cryptoMsgRead cs (some m) none =
      .ret (some { sequence := m.sequence, timestamp := m.timestamp,
                   subject := m.subject, data := some pt }) none := by
    show (match m.data with
          | none => ReadOutcome.ret (some m) none
          | some _ => decryptedMsg cs m) =
        ReadOutcome.ret (some { sequence := m.sequence, timestamp := m.timestamp,
                                subject := m.subject, data := some pt }) none
    rw [hm]
    show decryptedMsg cs m =
        ReadOutcome.ret (some { sequence := m.sequence, timestamp := m.timestamp,
                                subject := m.subject, data := some pt }) none
    unfold decryptedMsg
    rw [hm, Option.getD_some, hdec]
  refine ⟨fun h => ?_, fun h => ?_, fun h => ?_⟩
  · unfold CryptoMsgStore.Lookup
    rw [h]
    exact hcore
  · unfold CryptoMsgStore.FirstMsg
    rw [h]
    exact hcore
  · unfold CryptoMsgStore.LastMsg
    rw [h]
    exact hcore

/-- Witness for C10 at a closed input: looking up the toy sealed record with
the right key returns the decrypted payload under the stored metadata. -/
theorem decrypted_read_shallow_copy_witness :
    CryptoMsgStore.Lookup (toyMsgStoreOf sealedMsg) (toyStore 1) 11 =
      .ret (some { sequence := sealedMsg.sequence, timestamp := sealedMsg.timestamp,
                   subject := sealedMsg.subject, data := some [9, 10] }) none :=
  (decrypted_read_shallow_copy (toyStore 1) (toyMsgStoreOf sealedMsg) sealedMsg
    [5, 6, 1, 9, 10] [9, 10] 11 rfl (by rfl)).1 rfl

/-- C7: construction fails with `ErrCryptoStoreRequiresKey` exactly when the
explicit key parameter is empty and the environment value (empty when the
variable is unset) is empty too; with the environment value alone set
non-empty — and the external collaborators behaving (sha256 digests are 32
bytes, so `chacha20poly1305.New` accepts them, and the random source
delivers the initial nonce) — construction succeeds. -/
theorem newCryptoStore_requiresKey_iff (mk : Bytes → AEAD) (hash : String → Bytes)
    (rng : Option Bytes) (keyParam env : String) :
    (NewCryptoStore mk hash rng keyParam env = .error .requiresKey ↔
      keyParam = "" ∧ env = "") ∧
    (keyParam = "" → env ≠ "" → (hash env).length = 32 → ∀ n, rng = some n →
      ∃ cs, NewCryptoStore mk hash rng keyParam env = .ok cs) := by
  constructor
  · constructor
    · intro h
      by_cases hk : keyParam = ""
      · by_cases he : env = ""
        · exact ⟨hk, he⟩
        · exfalso
          unfold NewCryptoStore at h
          rw [if_pos hk, if_neg he] at h
          cases hc : chacha20poly1305New mk (hash env) with
          | none => rw [hc] at h; exact absurd h (by simp)
          | some gcm =>
            rw [hc] at h
            cases rng with
            | none => exact absurd h (by simp)
            | some n => exact absurd h (by simp)
      · exfalso
        unfold NewCryptoStore at h
        rw [if_neg hk, if_neg hk] at h
        cases hc : chacha20poly1305New mk (hash keyParam) with
        | none => rw [hc] at h; exact absurd h (by simp)
        | some gcm =>
          rw [hc] at h
          cases rng with
          | none => exact absurd h (by simp)
          | some n => exact absurd h (by simp)
    · rintro ⟨hk, he⟩
      unfold NewCryptoStore
      rw [if_pos hk, if_pos he]
  · intro hk he hlen n hn
    subst hn
    unfold NewCryptoStore
    rw [if_pos hk, if_neg he]
    unfold chacha20poly1305New
    rw [if_pos hlen]
    exact ⟨_, rfl⟩

/-- Witness for C7 at a closed input: with an empty key parameter and the
environment value "ivan", construction succeeds (and the missing-key error
occurs exactly when both are empty). -/
theorem newCryptoStore_requiresKey_iff_witness :
    (NewCryptoStore (fun _ => toyAEAD 1) (fun _ => List.replicate 32 0) (some [3, 4]) ""
        "ivan" = .error .requiresKey ↔ ("" : String) = "" ∧ ("ivan" : String) = "") ∧
    (("" : String) = "" → ("ivan" : String) ≠ "" →
      ((fun _ => List.replicate 32 0) ("ivan" : String) : Bytes).length = 32 →
      ∀ n, (some [3, 4] : Option Bytes) = some n →
      ∃ cs, NewCryptoStore (fun _ => toyAEAD 1) (fun _ => List.replicate 32 0) (some [3, 4]) ""
              "ivan" = .ok cs) :=
  newCryptoStore_requiresKey_iff (fun _ => toyAEAD 1) (fun _ => List.replicate 32 0)
    (some [3, 4]) "" "ivan"

/-- C9: `CreateChannel` delegates and, on success, only replaces the
returned channel's message-store handle by a `CryptoMsgStore` bound to this
`CryptoStore`, keeping the rest of the channel; on failure it returns the
underlying error.  `Recover` delegates recovery, returns the underlying
`(rs, err)` unchanged whenever `rs` is absent or `err` is set (so it fails
exactly when the underlying recovery does), and on success rewraps each
recovered channel's handle the same way, preserving channel names, channel
metadata and all other recovered data. -/
theorem create_recover_wraps_only_msgs {μ σ τ : Type} (cs : CryptoStore)
    (underC : String → Except ReadErr (Channel μ)) (name : String)
    (under : Option (RecoveredState μ σ τ) × Option ReadErr) :
    (∀ c, underC name = .ok c →
      CryptoStore.CreateChannel underC cs name =
        .ok { Msgs := .cryptoWrap c.Msgs cs, meta := c.meta }) ∧
    (∀ e, underC name = .error e → CryptoStore.CreateChannel underC cs name = .error e) ∧
    (∀ rs, under = (some rs, none) →
      CryptoStore.Recover under cs =
        (some { Channels := rs.Channels.map fun pr =>
                  (pr.1, { channel := { Msgs := .cryptoWrap pr.2.channel.Msgs cs,
                                        meta := pr.2.channel.meta },
                           extra := pr.2.extra }),
                extra := rs.extra }, none)) ∧
    (under.1 = none ∨ under.2 ≠ none → CryptoStore.Recover under cs = under) := by
  refine ⟨fun c h => ?_, fun e h => ?_, fun rs h => ?_, fun h => ?_⟩
  · unfold CryptoStore.CreateChannel
    rw [h]
  · unfold CryptoStore.CreateChannel
    rw [h]
  · subst h
    rfl
  · obtain ⟨m?, e?⟩ := under
    cases m? with
    | none => cases e? <;> rfl
    | some rs =>
      cases e? with
      | none =>
        exfalso
        rcases h with h | h
        · exact absurd h (by simp)
        · exact absurd rfl h
      | some e => rfl

/-- Witness for C9 at a closed input: one recovered channel gets its handle
wrapped while its name, metadata and recovered extras survive, and
`CreateChannel` wraps the created channel's handle. -/
theorem create_recover_wraps_only_msgs_witness :
    (∀ c, (fun _ : String => (.ok { Msgs := .base 0, meta := (42 : Nat) } :
              Except ReadErr (Channel Nat))) "foo" = .ok c →
      CryptoStore.CreateChannel
          (fun _ : String => (.ok { Msgs := .base 0, meta := (42 : Nat) } :
              Except ReadErr (Channel Nat))) (toyStore 1) "foo" =
        .ok { Msgs := .cryptoWrap c.Msgs (toyStore 1), meta := c.meta }) ∧
    (∀ e, (fun _ : String => (.ok { Msgs := .base 0, meta := (42 : Nat) } :
              Except ReadErr (Channel Nat))) "foo" = .error e →
      CryptoStore.CreateChannel
          (fun _ : String => (.ok { Msgs := .base 0, meta := (42 : Nat) } :
              Except ReadErr (Channel Nat))) (toyStore 1) "foo" = .error e) ∧
    (∀ rs, ((some { Channels := [("foo", { channel := { Msgs := .base 0, meta := (42 : Nat) },
                                           extra := (9 : Nat) })],
                    extra := (4 : Nat) } : Option (RecoveredState Nat Nat Nat)),
            (none : Option ReadErr)) = (some rs, none) →
      CryptoStore.Recover
          ((some { Channels := [("foo", { channel := { Msgs := .base 0, meta := (42 : Nat) },
                                          extra := (9 : Nat) })],
                   extra := (4 : Nat) } : Option (RecoveredState Nat Nat Nat)),
           (none : Option ReadErr)) (toyStore 1) =
        (some { Channels := rs.Channels.map fun pr =>
                  (pr.1, { channel := { Msgs := .cryptoWrap pr.2.channel.Msgs (toyStore 1),
                                        meta := pr.2.channel.meta },
                           extra := pr.2.extra }),
                extra := rs.extra }, none)) ∧
    (((some { Channels := [("foo", { channel := { Msgs := .base 0, meta := (42 : Nat) },
                                     extra := (9 : Nat) })],
              extra := (4 : Nat) } : Option (RecoveredState Nat Nat Nat)),
      (none : Option ReadErr)).1 = none ∨
     ((some { Channels := [("foo", { channel := { Msgs := .base 0, meta := (42 : Nat) },
                                     extra := (9 : Nat) })],
              extra := (4 : Nat) } : Option (RecoveredState Nat Nat Nat)),
      (none : Option ReadErr)).2 ≠ none →
      CryptoStore.Recover
          ((some { Channels := [("foo", { channel := { Msgs := .base 0, meta := (42 : Nat) },
                                          extra := (9 : Nat) })],
                   extra := (4 : Nat) } : Option (RecoveredState Nat Nat Nat)),
           (none : Option ReadErr)) (toyStore 1) =
        ((some { Channels := [("foo", { channel := { Msgs := .base 0, meta := (42 : Nat) },
                                        extra := (9 : Nat) })],
                 extra := (4 : Nat) } : Option (RecoveredState Nat Nat Nat)),
         (none : Option ReadErr))) :=
  create_recover_wraps_only_msgs (toyStore 1)
    (fun _ : String => (.ok { Msgs := .base 0, meta := (42 : Nat) } :
        Except ReadErr (Channel Nat))) "foo"
    ((some { Channels := [("foo", { channel := { Msgs := .base 0, meta := (42 : Nat) },
                                    extra := (9 : Nat) })],
             extra := (4 : Nat) } : Option (RecoveredState Nat Nat Nat)),
     (none : Option ReadErr))

theorem countGen_nil (g : Nat) : countGen g [] = 0 := rfl

theorem countRot_nil (g : Nat) : countRot g [] = 0 := rfl

theorem countGen_cons (g : Nat) (ev : SealEvent) (evs : List SealEvent) :
    countGen g (ev :: evs) = (if ev.gen = g then 1 else 0) + countGen g evs := by
  unfold countGen
  rw [List.filter_cons]
  by_cases h : ev.gen = g
  · simp [h]
    omega
  · simp [h]

theorem countRot_cons (g : Nat) (ev : SealEvent) (evs : List SealEvent) :
    countRot g (ev :: evs) =
      (if ev.gen = g ∧ ev.rotated = true then 1 else 0) + countRot g evs := by
  unfold countRot
  rw [List.filter_cons]
  by_cases h : ev.gen = g ∧ ev.rotated = true
  · simp [h.1, h.2]
    omega
  · rcases Decidable.not_and_iff_or_not.mp h with h' | h' <;> simp [h', h]

/-- Once the counter is at or past the maximum, a run commits nothing more:
the first call already spins forever. -/
theorem runEncrypts_stuck (max : Int) (fuel : Nat) (cs : CryptoStore)
    (inputs : List (Bytes × Option Bytes)) (h : max ≤ cs.encrypted) :
    (runEncrypts max fuel cs inputs).2 = [] := by
  cases inputs with
  | nil => rfl
  | cons pr rest =>
    obtain ⟨p, rng⟩ := pr
    unfold runEncrypts
    rw [encrypt_over max rng cs p h fuel]

/-- Unfolding a run one step on a successful seal. -/
theorem runEncrypts_cons_ok (max : Int) (fuel : Nat) (cs cs' : CryptoStore) (p buf : Bytes)
    (rng : Option Bytes) (rest : List (Bytes × Option Bytes))
    (h : encrypt max rng fuel cs p = some (.ok buf cs')) :
    (runEncrypts max fuel cs ((p, rng) :: rest)).2 =
      { gen := cs'.gen, count := cs'.encrypted, rotated := cs'.gen != cs.gen } ::
        (runEncrypts max fuel cs' rest).2 := by
  simp only [runEncrypts, h]

/-- Unfolding a run one step on a failed rotation. -/
theorem runEncrypts_cons_err (max : Int) (fuel : Nat) (cs cs' : CryptoStore) (p : Bytes)
    (rng : Option Bytes) (rest : List (Bytes × Option Bytes))
    (h : encrypt max rng fuel cs p = some (.err cs')) :
    (runEncrypts max fuel cs ((p, rng) :: rest)).2 = (runEncrypts max fuel cs' rest).2 := by
  simp only [runEncrypts, h]

/-- Main invariant of a run of seal calls: starting below the maximum with a
drained in-flight counter and a free lock, the events a run commits satisfy
`EvGood` — in particular at most `max - 1 - encrypted` further seals under
the current nonce and at most `max` under any later one. -/
theorem runEncrypts_evGood (max : Int) (f : Nat) (hmax : 1 ≤ max) :
    ∀ (inputs : List (Bytes × Option Bytes)) (cs : CryptoStore),
      0 ≤ cs.encrypted → cs.encrypted < max → cs.inEncrypt = 0 → cs.locked = false →
      EvGood max cs (runEncrypts max (f + 1) cs inputs).2 := by
  intro inputs
  induction inputs with
  | nil =>
    intro cs h0 h1 _ _
    have hnil : (runEncrypts max (f + 1) cs []).2 = ([] : List SealEvent) := rfl
    rw [hnil]
    refine ⟨by simp, ?_, fun g _ => countGen_nil g, ?_, fun g _ => countRot_nil g, ?_⟩
    · rw [countGen_nil]
      push_cast
      omega
    · intro g _
      rw [countGen_nil]
      push_cast
      omega
    · intro g _
      rw [countRot_nil]
      omega
  | cons pr rest ih =>
    obtain ⟨p, rng⟩ := pr
    intro cs h0 h1 hin hlk
    by_cases hlt : cs.encrypted + 1 < max
    · -- ordinary seal under the current nonce
      have heq := encrypt_below max rng f cs p hlt
      rw [runEncrypts_cons_ok max (f + 1) cs _ p _ rng rest heq]
      have G := ih { cs with encrypted := cs.encrypted + 1 }
        (by show 0 ≤ cs.encrypted + 1; omega) (by show cs.encrypted + 1 < max; omega) hin hlk
      have e1 : ({ cs with encrypted := cs.encrypted + 1 } : CryptoStore).gen = cs.gen := rfl
      have e2 : ({ cs with encrypted := cs.encrypted + 1 } : CryptoStore).encrypted =
          cs.encrypted + 1 := rfl
      refine ⟨?_, ?_, ?_, ?_, ?_, ?_⟩
      · intro ev hev
        rcases List.mem_cons.mp hev with hev | hev
        · subst hev
          refine ⟨Or.inl hlt, ?_⟩
          show ((cs.gen != cs.gen) = true ↔ cs.encrypted + 1 = 0)
          simp only [bne_self_eq_false]
          constructor
          · intro h; exact absurd h (by simp)
          · intro h; exact absurd h (by omega)
        · exact G.events ev hev
      · rw [countGen_cons, if_pos (show cs.gen = cs.gen from rfl)]
        have hc := G.cur
        rw [e1, e2] at hc
        push_cast at hc ⊢
        omega
      · intro g hg
        rw [countGen_cons, if_neg (show ¬ cs.gen = g by omega), Nat.zero_add]
        have hc := G.past g hg
        rw [e1] at hc
        exact hc
      · intro g hg
        rw [countGen_cons, if_neg (show ¬ cs.gen = g by omega), Nat.zero_add]
        have hc := G.future g hg
        rw [e1] at hc
        exact hc
      · intro g hg
        rw [countRot_cons, if_neg ?_, Nat.zero_add]
        · have hc := G.rotPast g hg
          rw [e1] at hc
          exact hc
        · intro hcon
          have : (cs.gen != cs.gen) = true := hcon.2
          simp [bne_self_eq_false] at this
      · intro g hg
        rw [countRot_cons, if_neg ?_, Nat.zero_add]
        · have hc := G.rotFuture g hg
          rw [e1] at hc
          exact hc
        · intro hcon
          have : (cs.gen != cs.gen) = true := hcon.2
          simp [bne_self_eq_false] at this
    · have hEq : cs.encrypted + 1 = max := by omega
      cases rng with
      | some n =>
        -- this call rotates and seals under the new nonce
        have heq := encrypt_rotate_some max n f cs p hEq hlk (by omega)
        have hR : rotateState cs n =
            { cs with nonce := n, encrypted := 0, gen := cs.gen + 1, locked := false } := rfl
        rw [hR] at heq
        rw [runEncrypts_cons_ok max (f + 1) cs _ p _ (some n) rest heq]
        have G := ih { cs with nonce := n, encrypted := 0, gen := cs.gen + 1, locked := false }
          (by show (0 : Int) ≤ 0; omega) (by show (0 : Int) < max; omega)
          (by show cs.inEncrypt = 0; exact hin) rfl
        refine ⟨?_, ?_, ?_, ?_, ?_, ?_⟩
        · intro ev hev
          rcases List.mem_cons.mp hev with hev | hev
          · subst hev
            constructor
            · refine Or.inr ?_
              show (cs.gen + 1 != cs.gen) = true
              simp [bne_iff_ne]
            · show ((cs.gen + 1 != cs.gen) = true ↔ (0 : Int) = 0)
              simp [bne_iff_ne]
          · exact G.events ev hev
        · rw [countGen_cons, if_neg (show ¬ cs.gen + 1 = cs.gen by omega), Nat.zero_add]
          have hc : countGen cs.gen (runEncrypts max (f + 1)
              { cs with nonce := n, encrypted := 0, gen := cs.gen + 1, locked := false }
              rest).2 = 0 :=
            G.past cs.gen (by show cs.gen < cs.gen + 1; omega)
          rw [hc]
          push_cast
          omega
        · intro g hg
          rw [countGen_cons, if_neg (show ¬ cs.gen + 1 = g by omega), Nat.zero_add]
          exact G.past g (by show g < cs.gen + 1; omega)
        · intro g hg
          rw [countGen_cons]
          by_cases hg1 : g = cs.gen + 1
          · subst hg1
            rw [if_pos (show cs.gen + 1 = cs.gen + 1 from rfl)]
            have hc : (countGen (cs.gen + 1) (runEncrypts max (f + 1)
                { cs with nonce := n, encrypted := 0, gen := cs.gen + 1, locked := false }
                rest).2 : Int) ≤ max - 1 - 0 := G.cur
            push_cast at hc ⊢
            omega
          · rw [if_neg (show ¬ cs.gen + 1 = g by omega), Nat.zero_add]
            exact G.future g (by show cs.gen + 1 < g; omega)
        · intro g hg
          rw [countRot_cons, if_neg ?_, Nat.zero_add]
          · exact G.rotPast g (by show g ≤ cs.gen + 1; omega)
          · intro hcon
            have : cs.gen + 1 = g := hcon.1
            omega
        · intro g hg
          rw [countRot_cons]
          by_cases hg1 : g = cs.gen + 1
          · subst hg1
            have hc : countRot (cs.gen + 1) (runEncrypts max (f + 1)
                { cs with nonce := n, encrypted := 0, gen := cs.gen + 1, locked := false }
                rest).2 = 0 :=
              G.rotPast (cs.gen + 1) (by show cs.gen + 1 ≤ cs.gen + 1; omega)
            rw [if_pos (show (cs.gen + 1 = cs.gen + 1) ∧ ((cs.gen + 1 : Nat) != cs.gen) = true
                from ⟨rfl, by simp [bne_iff_ne]⟩), hc]
          · rw [if_neg (fun hcon => hg1 hcon.1.symm), Nat.zero_add]
            exact G.rotFuture g (by show cs.gen + 1 < g; omega)
      | none =>
        -- the rotation fails: the error is returned, nothing is committed,
        -- and every later call spins without returning
        have heq := encrypt_rotate_none max f cs p hEq hlk (by omega)
        rw [runEncrypts_cons_err max (f + 1) cs _ p none rest heq,
          runEncrypts_stuck max (f + 1) _ rest (by show max ≤ cs.encrypted + 1; omega)]
        refine ⟨by simp, ?_, fun g _ => countGen_nil g, ?_, fun g _ => countRot_nil g, ?_⟩
        · rw [countGen_nil]
          push_cast
          omega
        · intro g _
          rw [countGen_nil]
          push_cast
          omega
        · intro g _
          rw [countRot_nil]
          omega

/-- C2: in any sequence of seal calls starting from a fresh store, no seal
commits with the call counter at or past the configured maximum except the
rotation seal itself (which commits with the counter freshly reset to 0 —
the counter is 0 exactly for nonce-installing seals), every nonce generation
is used by at most `max` seal operations, and at most one seal per
generation is a rotation. -/
theorem nonce_usage_invariant (max : Int) (fuel : Nat) (cs : CryptoStore)
    (inputs : List (Bytes × Option Bytes))
    (hmax : 1 ≤ max) (hfuel : 0 < fuel)
    (h0 : cs.encrypted = 0) (hin : cs.inEncrypt = 0) (hlk : cs.locked = false) :
    (∀ ev ∈ (runEncrypts max fuel cs inputs).2,
        (ev.count < max ∨ ev.rotated = true) ∧ (ev.rotated = true ↔ ev.count = 0)) ∧
    (∀ g, (countGen g (runEncrypts max fuel cs inputs).2 : Int) ≤ max) ∧
    (∀ g, countRot g (runEncrypts max fuel cs inputs).2 ≤ 1) := by
  obtain ⟨f, rfl⟩ : ∃ f, fuel = f + 1 := ⟨fuel - 1, by omega⟩
  have G := runEncrypts_evGood max f hmax inputs cs (by omega) (by omega) hin hlk
  refine ⟨G.events, fun g => ?_, fun g => ?_⟩
  · rcases lt_trichotomy g cs.gen with h | h | h
    · rw [G.past g h]
      push_cast
      omega
    · subst h
      have := G.cur
      push_cast at this ⊢
      omega
    · exact G.future g h
  · rcases le_or_lt g cs.gen with h | h
    · rw [G.rotPast g h]
      omega
    · exact G.rotFuture g h

/-- Witness for C2 at a closed input: four seal calls with maximum 2 — two
ordinary seals, one successful rotation in between and a final rotation —
satisfy all three invariant conclusions. -/
theorem nonce_usage_invariant_witness :
    (∀ ev ∈ (runEncrypts 2 3 (toyStore 1)
        [([1], some [7, 8]), ([2], some [8, 9]), ([3], none), ([4], some [9, 9])]).2,
        (ev.count < 2 ∨ ev.rotated = true) ∧ (ev.rotated = true ↔ ev.count = 0)) ∧
    (∀ g, (countGen g (runEncrypts 2 3 (toyStore 1)
        [([1], some [7, 8]), ([2], some [8, 9]), ([3], none), ([4], some [9, 9])]).2 : Int) ≤ 2) ∧
    (∀ g, countRot g (runEncrypts 2 3 (toyStore 1)
        [([1], some [7, 8]), ([2], some [8, 9]), ([3], none), ([4], some [9, 9])]).2 ≤ 1) :=
  nonce_usage_invariant 2 3 (toyStore 1)
    [([1], some [7, 8]), ([2], some [8, 9]), ([3], none), ([4], some [9, 9])]
    (by decide) (by decide) rfl rfl rfl

end Cryptostore
